import Mathlib

/-!
Verification of the JJY clock firmware core (`src/main.rs`).

The development shallowly embeds the three pure cores of the firmware:

* the pulse-width classifier (`is_in_width` and the `match` in `jjy_task`),
  including an exact model of its single-precision floating-point
  arithmetic over dyadic rationals;
* the frame decoder state machine of `jjy_task`
  (buffer / cursor / recording / previous_is_marker) and the BCD decoder
  `to_minute_hour_day`;
* the clock extrapolation and text rendering of `display_task`.

Machine integers are modelled as `Nat` with explicit `% 2 ^ 32` / `% 2 ^ 64`
where wrap-around matters (release-mode Rust semantics).
-/

/-- `BitWidth` from the source: the symbol alphabet produced by the
pulse-width classifier. -/
inductive BitWidth where
  | Unknown
  | Marker
  | Short
  | Long
deriving DecidableEq, Repr

/-- `BitWidth::try_as_bool`: `Short` is logical 1, `Long` is logical 0,
`Marker`/`Unknown` carry no bit. -/
def BitWidth.try_as_bool : BitWidth → Option Bool
  | .Unknown => none
  | .Marker => none
  | .Short => some true
  | .Long => some false

/-- `TimeBase` from the source: `system_time` is a `u64` millisecond
timestamp, `clock` a `u32` second count. -/
structure TimeBase where
  system_time : ℕ
  clock : ℕ
deriving DecidableEq, Repr

/-! ### Exact model of the `f32` arithmetic in `is_in_width`

A finite positive `f32` value is a dyadic rational; we represent it exactly
as `num / 2 ^ scale`.  IEEE-754 binary32 arithmetic computes the exact real
result and rounds it to 24 significand bits, nearest-even.  The exponent
range of binary32 (no overflow above `2 ^ 128`, no subnormals below
`2 ^ (-126)`) is never exercised by the source: every value involved lies
between `0.2` and `2 ^ 32 · 1.2`, so rounding to 24 significand bits with an
unbounded exponent is bit-exact here. -/

/-- Dyadic rational `num / 2 ^ scale`: the exact value of a nonnegative
finite `f32`. -/
structure Dy where
  num : ℕ
  scale : ℕ
deriving DecidableEq, Repr

/-- Exact comparison of dyadic rationals; IEEE `<` on finite nonnegative
floats is exactly the comparison of the represented values. -/
def dyLt (a b : Dy) : Bool :=
  decide (a.num * 2 ^ b.scale < b.num * 2 ^ a.scale)

/-- Exact sum of dyadic rationals (the real sum, before rounding). -/
def dyAdd (a b : Dy) : Dy :=
  ⟨a.num * 2 ^ b.scale + b.num * 2 ^ a.scale, a.scale + b.scale⟩

/-- Exact difference of dyadic rationals (the real difference, before
rounding).  Truncated `Nat` subtraction: only ever used with the larger
operand first (`1.0 - 0.2`). -/
def dySub (a b : Dy) : Dy :=
  ⟨a.num * 2 ^ b.scale - b.num * 2 ^ a.scale, a.scale + b.scale⟩

/-- Exact product of dyadic rationals (the real product, before rounding). -/
def dyMul (a b : Dy) : Dy :=
  ⟨a.num * b.num, a.scale + b.scale⟩

/-- A `u32` seen as an exact dyadic rational. -/
def natToDy (n : ℕ) : Dy := ⟨n, 0⟩

/-- Fuel-driven binary logarithm: `natLog2Aux fuel n` is `⌊log₂ n⌋` whenever
`1 ≤ n ≤ fuel`.  Structural recursion on the fuel keeps it kernel-reducible. -/
def natLog2Aux : ℕ → ℕ → ℕ
  | 0, _ => 0
  | fuel + 1, n => if n < 2 then 0 else natLog2Aux fuel (n / 2) + 1

/-- `⌊log₂ n⌋` for `n ≥ 1`. -/
def natLog2 (n : ℕ) : ℕ := natLog2Aux n n

/-- Round the rational `a / b` (with `b ≠ 0`) to the nearest integer,
ties to even: the IEEE-754 default rounding applied to a significand. -/
def ratSigRound (a b : ℕ) : ℕ :=
  let q := a / b
  let r := a % b
  if 2 * r < b then q
  else if b < 2 * r then q + 1
  else if q % 2 = 0 then q else q + 1

/-- Round a dyadic rational to the nearest `f32` (24 significand bits,
nearest-even, unbounded exponent).  A value whose numerator already fits in
24 bits is exactly representable and left unchanged; otherwise the
significand is rounded at bit position `⌊log₂⌋ - 23`. -/
def roundf32 (d : Dy) : Dy :=
  if d.num = 0 then ⟨0, 0⟩
  else
    let L := natLog2 d.num
    if L ≤ 23 then d
    else
      let k := L - 23
      let m := ratSigRound d.num (2 ^ k)
      if d.scale ≤ k then ⟨m * 2 ^ (k - d.scale), 0⟩ else ⟨m, d.scale - k⟩

/-- The nearest `f32` to the positive rational `a / b`: used for the decimal
literal `0.20`, whose value `1/5` is not dyadic. -/
def f32OfPosRat (a b : ℕ) : Dy :=
  if a = 0 ∨ b = 0 then ⟨0, 0⟩
  else
    let La := natLog2 a
    let Lb := natLog2 b
    -- The exponent of a/b is La - Lb or La - Lb - 1; test 2 ^ (La - Lb) ≤ a / b.
    let d : ℕ := if b * 2 ^ La ≤ a * 2 ^ Lb then 0 else 1
    -- significand = (a / b) · 2 ^ (23 - e) with e = La - Lb - d
    let shift : ℤ := 23 - (La : ℤ) + Lb + d
    if 0 ≤ shift then
      ⟨ratSigRound (a * 2 ^ shift.toNat) b, shift.toNat⟩
    else
      ⟨ratSigRound a (b * 2 ^ (-shift).toNat) * 2 ^ (-shift).toNat, 0⟩

/-- `ALLOWED_ERROR: f32 = 0.20` from `jjy_task`: the `f32` nearest to `1/5`
(exact value `13421773 / 2 ^ 26`). -/
def ALLOWED_ERROR : Dy := f32OfPosRat 1 5

/-- `is_in_width` from `jjy_task`: the `±20 %` pulse-width tolerance check,
with every `f32` operation (literal, cast, add, sub, mul, compare) modelled
exactly. -/
def is_in_width (left_hand right_hand : ℕ) : Bool :=
  let max_time := roundf32 (dyMul (roundf32 (natToDy right_hand))
    (roundf32 (dyAdd (natToDy 1) ALLOWED_ERROR)))
  let min_time := roundf32 (dyMul (roundf32 (natToDy right_hand))
    (roundf32 (dySub (natToDy 1) ALLOWED_ERROR)))
  let actual_time := roundf32 (natToDy left_hand)
  dyLt min_time actual_time && dyLt actual_time max_time

/-- The `match elapsed_ms { .. }` classifier in `jjy_task`: nominal widths
are tried in the order 200 ms (`Marker`), 500 ms (`Short`), 800 ms (`Long`). -/
def classify (elapsed_ms : ℕ) : BitWidth :=
  if is_in_width elapsed_ms 200 then .Marker
  else if is_in_width elapsed_ms 500 then .Short
  else if is_in_width elapsed_ms 800 then .Long
  else .Unknown

/-! ### The frame decoder (`jjy_task`) and `to_minute_hour_day` -/

/-- Minute field of `to_minute_hour_day`: buffer positions and BCD weights,
in the order the source tests them (`buf[1] → 40`, …, `buf[8] → 1`). -/
def minutePositions : List (ℕ × ℕ) :=
  [(1, 40), (2, 20), (3, 10), (5, 8), (6, 4), (7, 2), (8, 1)]

/-- Hour field positions and weights (`buf[12] → 20`, …, `buf[18] → 1`). -/
def hourPositions : List (ℕ × ℕ) :=
  [(12, 20), (13, 10), (15, 8), (16, 4), (17, 2), (18, 1)]

/-- Day-of-year field positions and weights (`buf[22] → 200`, …,
`buf[33] → 1`). -/
def dayPositions : List (ℕ × ℕ) :=
  [(22, 200), (23, 100), (25, 80), (26, 40), (27, 20), (28, 10),
   (30, 8), (31, 4), (32, 2), (33, 1)]

/-- The repeated `if buf[p].try_as_bool()? { field += w; parity = !parity }`
blocks of `to_minute_hour_day`, folded over a position/weight list in source
order: returns `none` as soon as a position holds `Marker`/`Unknown`
(the `?` operator), otherwise the accumulated value and running parity. -/
def accumField (buf : ℕ → BitWidth) : List (ℕ × ℕ) → Option (ℕ × Bool)
  | [] => some (0, false)
  | (p, w) :: rest =>
    match (buf p).try_as_bool with
    | none => none
    | some b =>
      match accumField buf rest with
      | none => none
      | some (v, par) => some (if b then v + w else v, if b then !par else par)

/-- Like `accumField` but without a parity accumulator: the source keeps no
parity for the day field. -/
def sumField (buf : ℕ → BitWidth) : List (ℕ × ℕ) → Option ℕ
  | [] => some 0
  | (p, w) :: rest =>
    match (buf p).try_as_bool with
    | none => none
    | some b =>
      match sumField buf rest with
      | none => none
      | some v => some (if b then v + w else v)

/-- `to_minute_hour_day` from `jjy_task`: decodes the BCD minute, hour and
day fields from the first 38 captured symbols and checks the even-parity
bits (`buf[36]` against the hour bits, then `buf[37]` against the minute
bits).  The buffer is modelled as a total function; the only call site
passes the 60-element frame buffer, so no out-of-bounds access arises. -/
def to_minute_hour_day (buf : ℕ → BitWidth) : Option (ℕ × ℕ × ℕ) :=
  match accumField buf minutePositions with
  | none => none
  | some (minute, minute_parity) =>
    match accumField buf hourPositions with
    | none => none
    | some (hour, hour_parity) =>
      match sumField buf dayPositions with
      | none => none
      | some day =>
        match (buf 36).try_as_bool with
        | none => none
        | some b36 =>
          if b36 ≠ hour_parity then none
          else
            match (buf 37).try_as_bool with
            | none => none
            | some b37 =>
              if b37 ≠ minute_parity then none
              else some (minute, hour, day)

/-- The decoder-private state of `jjy_task`: the 60-symbol frame buffer
(modelled as a total function, written only at indices `< 60`), the write
cursor, and the two flags. -/
structure JjyState where
  buffer : ℕ → BitWidth
  cursor : ℕ
  recording : Bool
  previous_is_marker : Bool

/-- The state at the top of `jjy_task`'s loop: all-`Unknown` buffer,
cursor 0, not recording, no marker seen. -/
def initState : JjyState :=
  ⟨fun _ => .Unknown, 0, false, false⟩

/-- One iteration of `jjy_task`'s loop body after classification, for a
classified symbol `bit` whose falling edge was stamped `up_at`.  Returns the
next state and the `TimeBaseUpdate` published on this iteration, if any:

* `Unknown` resets `cursor` and `recording` and continues
  (`previous_is_marker` is left unchanged, as in the source);
* a `Marker` following a marker starts recording at cursor 0;
* while recording, reaching cursor 38 first attempts a decode — failure
  resets `cursor`/`recording` without storing, success publishes
  `TimeBase { system_time = up_at, clock = minute·60 + hour·3600 + cursor }` —
  and then the symbol is stored and the cursor advances modulo 60. -/
def step (s : JjyState) (bit : BitWidth) (up_at : ℕ) : JjyState × Option TimeBase :=
  if bit = .Unknown then
    ({ s with cursor := 0, recording := false }, none)
  else
    let s :=
      if bit = .Marker then
        if s.previous_is_marker then
          { s with recording := true, cursor := 0, previous_is_marker := true }
        else
          { s with previous_is_marker := true }
      else
        { s with previous_is_marker := false }
    if s.recording then
      if s.cursor = 38 then
        match to_minute_hour_day s.buffer with
        | none => ({ s with cursor := 0, recording := false }, none)
        | some (minute, hour, _day) =>
          ({ s with buffer := Function.update s.buffer s.cursor bit,
                    cursor := (s.cursor + 1) % 60 },
           some ⟨up_at, minute * 60 + hour * 3600 + s.cursor⟩)
      else
        ({ s with buffer := Function.update s.buffer s.cursor bit,
                  cursor := (s.cursor + 1) % 60 }, none)
    else (s, none)

/-- Run the decoder over a list of classified symbols with their falling-edge
timestamps, collecting every published `TimeBase` in order. -/
def processList (s : JjyState) : List (BitWidth × ℕ) → JjyState × List TimeBase
  | [] => (s, [])
  | (bit, up_at) :: rest =>
    let out := step s bit up_at
    let rec_ := processList out.1 rest
    (rec_.1, out.2.toList ++ rec_.2)

/-! ### The renderer (`display_task`) -/

/-- The seconds-of-day value `display_task` decomposes into `HH:MM:SS`:
`diff = ((now - system_time + 25) / 1000) as u32` (u64 wrapping subtraction
and addition, then a truncating cast) and
`remaining = (clock + diff) % 86400` (u32 wrapping addition). -/
def displaySecondsOfDay (tb : TimeBase) (now : ℕ) : ℕ :=
  let diff := ((now % 2 ^ 64 + 2 ^ 64 - tb.system_time % 2 ^ 64) % 2 ^ 64 + 25)
    % 2 ^ 64 / 1000 % 2 ^ 32
  (tb.clock + diff) % 2 ^ 32 % (60 * 60 * 24)

/-- The forty data bytes `display_task` writes for a known time base:
eight `HH:MM:SS` glyphs (`0x30 + digit`, `0x3A` for `':'`) followed by
32 spaces. -/
def renderTimeBytes (tb : TimeBase) (now : ℕ) : List ℕ :=
  let remaining := displaySecondsOfDay tb now
  let hour := remaining / (60 * 60)
  let remaining2 := remaining % (60 * 60)
  let minute := remaining2 / 60
  let sec := remaining2 % 60
  [0x30 + hour / 10, 0x30 + hour % 10, 0x3A,
   0x30 + minute / 10, 0x30 + minute % 10, 0x3A,
   0x30 + sec / 10, 0x30 + sec % 10] ++ List.replicate 32 0x20

/-! ### Spec-side constructions

The encoder, the integer tolerance predicate, and the input-shape predicates
below do not exist in the source; they are stated by the spec (round-trip
property, integer reformulation, frame-alignment property) and are defined
here from the spec's words, to be checked against the source definitions
above. -/

/-- A logical bit as a symbol: `Short` is 1, `Long` is 0 (the inverse of
`BitWidth.try_as_bool`). -/
def boolToSym (b : Bool) : BitWidth := if b then .Short else .Long

/-- Bit of the BCD digit `v` at weight `w` (for `w ∈ {1, 2, 4, 8}`). -/
def bcdBit (v w : ℕ) : Bool := decide (v / w % 2 = 1)

/-- Even parity of the seven minute data bits (positions 1,2,3,5,6,7,8). -/
def minuteParity (m : ℕ) : Bool :=
  Bool.xor (bcdBit (m / 10) 4) (Bool.xor (bcdBit (m / 10) 2)
    (Bool.xor (bcdBit (m / 10) 1) (Bool.xor (bcdBit (m % 10) 8)
      (Bool.xor (bcdBit (m % 10) 4) (Bool.xor (bcdBit (m % 10) 2)
        (Bool.xor (bcdBit (m % 10) 1) false))))))

/-- Even parity of the six hour data bits (positions 12,13,15,16,17,18). -/
def hourParity (h : ℕ) : Bool :=
  Bool.xor (bcdBit (h / 10) 2) (Bool.xor (bcdBit (h / 10) 1)
    (Bool.xor (bcdBit (h % 10) 8) (Bool.xor (bcdBit (h % 10) 4)
      (Bool.xor (bcdBit (h % 10) 2) (Bool.xor (bcdBit (h % 10) 1) false)))))

/-- Modelled from the spec: the 38-symbol frame head for a given
minute/hour/day triple — `Marker` at position 0 and at the 9/19/29
boundaries, BCD data bits at the weights of the spec's table, the even
parity bits at positions 36 (hour) and 37 (minute), and logical 0 (`Long`)
at the positions this decoder ignores. -/
def encodeFrame (minute hour day : ℕ) : ℕ → BitWidth := fun p =>
  if p = 0 ∨ p % 10 = 9 then .Marker
  else if p = 1 then boolToSym (bcdBit (minute / 10) 4)
  else if p = 2 then boolToSym (bcdBit (minute / 10) 2)
  else if p = 3 then boolToSym (bcdBit (minute / 10) 1)
  else if p = 5 then boolToSym (bcdBit (minute % 10) 8)
  else if p = 6 then boolToSym (bcdBit (minute % 10) 4)
  else if p = 7 then boolToSym (bcdBit (minute % 10) 2)
  else if p = 8 then boolToSym (bcdBit (minute % 10) 1)
  else if p = 12 then boolToSym (bcdBit (hour / 10) 2)
  else if p = 13 then boolToSym (bcdBit (hour / 10) 1)
  else if p = 15 then boolToSym (bcdBit (hour % 10) 8)
  else if p = 16 then boolToSym (bcdBit (hour % 10) 4)
  else if p = 17 then boolToSym (bcdBit (hour % 10) 2)
  else if p = 18 then boolToSym (bcdBit (hour % 10) 1)
  else if p = 22 then boolToSym (bcdBit (day / 100) 2)
  else if p = 23 then boolToSym (bcdBit (day / 100) 1)
  else if p = 25 then boolToSym (bcdBit (day / 10 % 10) 8)
  else if p = 26 then boolToSym (bcdBit (day / 10 % 10) 4)
  else if p = 27 then boolToSym (bcdBit (day / 10 % 10) 2)
  else if p = 28 then boolToSym (bcdBit (day / 10 % 10) 1)
  else if p = 30 then boolToSym (bcdBit (day % 10) 8)
  else if p = 31 then boolToSym (bcdBit (day % 10) 4)
  else if p = 32 then boolToSym (bcdBit (day % 10) 2)
  else if p = 33 then boolToSym (bcdBit (day % 10) 1)
  else if p = 36 then boolToSym (hourParity hour)
  else if p = 37 then boolToSym (minuteParity minute)
  else .Long

/-- Flip a data symbol: `Short ↔ Long` (markers and unknowns unchanged). -/
def flipSym : BitWidth → BitWidth
  | .Short => .Long
  | .Long => .Short
  | b => b

/-- Modelled from the spec: the integer reformulation
`5 · elapsed ∈ (4 · nominal, 6 · nominal)` of the `±20 %` window. -/
def intPred (elapsed nominal : ℕ) : Bool :=
  decide (4 * nominal < 5 * elapsed) && decide (5 * elapsed < 6 * nominal)

/-- Modelled from the spec (claim C7): the symbol list contains no two
consecutive `Marker`s. -/
def noTwoConsecutiveMarkers : List BitWidth → Bool
  | [] => true
  | [_] => true
  | a :: b :: rest =>
    !(a = BitWidth.Marker && b = BitWidth.Marker) &&
      noTwoConsecutiveMarkers (b :: rest)

/-- `markerFree b l`: processing `l` with `previous_is_marker = b` never
presents a `Marker` while the previous non-`Unknown` symbol was a `Marker`
(`Unknown` does not touch `previous_is_marker` in the source). -/
def markerFree : Bool → List BitWidth → Bool
  | _, [] => true
  | b, .Unknown :: rest => markerFree b rest
  | b, .Marker :: rest => !b && markerFree true rest
  | _, .Short :: rest => markerFree false rest
  | _, .Long :: rest => markerFree false rest

/-- A frame head whose data positions are all logical 1 and whose parity
bits match: decodes to minute 85, hour 45, day 464. -/
def allOnesBuf : ℕ → BitWidth := fun p =>
  if p = 36 then .Long else .Short

/-- Scenario S1: the symbol stream for minute 34, hour 12, day 158 — a
`Marker` ending the previous frame, then frame positions 0–38; the symbol
at stream index `i` carries the falling-edge timestamp `i`. -/
def s1Input : List (BitWidth × ℕ) :=
  (BitWidth.Marker, 0) ::
    (List.range 39).map (fun i => (encodeFrame 34 12 158 i, i + 1))

/-! ### Lemmas: the `f32` model -/

theorem natLog2Aux_spec : ∀ fuel n, 1 ≤ n → n ≤ fuel →
    2 ^ natLog2Aux fuel n ≤ n ∧ n < 2 ^ (natLog2Aux fuel n + 1) := by
  intro fuel
  induction fuel with
  | zero => intro n h1 h2; omega
  | succ fuel ih =>
    intro n h1 h2
    simp only [natLog2Aux]
    by_cases h : n < 2
    · simp only [h, if_true]
      constructor
      · simpa using h1
      · simpa using h
    · simp only [h, if_false]
      have hrec := ih (n / 2) (by omega) (by omega)
      have e1 : 2 ^ (natLog2Aux fuel (n / 2) + 1) = 2 ^ natLog2Aux fuel (n / 2) * 2 :=
        pow_succ 2 _
      have e2 : 2 ^ (natLog2Aux fuel (n / 2) + 1 + 1) =
          2 ^ (natLog2Aux fuel (n / 2) + 1) * 2 := pow_succ 2 _
      omega

theorem natLog2_spec (n : ℕ) (h : 1 ≤ n) :
    2 ^ natLog2 n ≤ n ∧ n < 2 ^ (natLog2 n + 1) :=
  natLog2Aux_spec n n h le_rfl

theorem roundf32_small (n s : ℕ) (h1 : 1 ≤ n) (h2 : n < 2 ^ 24) :
    roundf32 ⟨n, s⟩ = ⟨n, s⟩ := by
  have hL : natLog2 n ≤ 23 := by
    by_contra hc
    have hmono : (2 : ℕ) ^ 24 ≤ 2 ^ natLog2 n :=
      Nat.pow_le_pow_right (by norm_num) (by omega)
    have := (natLog2_spec n h1).1
    omega
  have hn : ¬ ((⟨n, s⟩ : Dy).num = 0) := by simp; omega
  simp [roundf32, hn, hL]

theorem roundf32_big (n : ℕ) (h : 2 ^ 24 ≤ n) :
    ∃ m, 2 ^ 24 ≤ m ∧ roundf32 ⟨n, 0⟩ = ⟨m, 0⟩ := by
  have h1 : 1 ≤ n := by omega
  obtain ⟨hlo, hhi⟩ := natLog2_spec n h1
  have hL24 : 24 ≤ natLog2 n := by
    by_contra hc
    have hmono : (2 : ℕ) ^ (natLog2 n + 1) ≤ 2 ^ 24 :=
      Nat.pow_le_pow_right (by norm_num) (by omega)
    omega
  have hLgt : ¬ (natLog2 n ≤ 23) := by omega
  have hn : ¬ (n = 0) := by omega
  have hsplit : (2 : ℕ) ^ natLog2 n = 2 ^ 23 * 2 ^ (natLog2 n - 23) := by
    rw [← pow_add]
    congr 1
    omega
  have hq : 2 ^ 23 ≤ n / 2 ^ (natLog2 n - 23) :=
    (Nat.le_div_iff_mul_le (Nat.pos_pow_of_pos _ (by norm_num))).2 (by omega)
  have hm : 2 ^ 23 ≤ ratSigRound n (2 ^ (natLog2 n - 23)) := by
    simp only [ratSigRound]
    split_ifs <;> omega
  refine ⟨ratSigRound n (2 ^ (natLog2 n - 23)) * 2 ^ (natLog2 n - 23), ?_, ?_⟩
  · have h2 : (2 : ℕ) ^ 1 ≤ 2 ^ (natLog2 n - 23) :=
      Nat.pow_le_pow_right (by norm_num) (by omega)
    calc (2 : ℕ) ^ 24 = 2 ^ 23 * 2 ^ 1 := by norm_num
    _ ≤ ratSigRound n (2 ^ (natLog2 n - 23)) * 2 ^ (natLog2 n - 23) :=
        Nat.mul_le_mul hm h2
  · simp [roundf32, hn, hLgt]

theorem is_in_width_200 (e : ℕ) : is_in_width e 200 = true ↔ 160 < e ∧ e ≤ 240 := by
  have hmin : roundf32 (dyMul (roundf32 (natToDy 200))
      (roundf32 (dySub (natToDy 1) ALLOWED_ERROR))) = ⟨10485760, 16⟩ := by decide
  have hmax : roundf32 (dyMul (roundf32 (natToDy 200))
      (roundf32 (dyAdd (natToDy 1) ALLOWED_ERROR))) = ⟨15728641, 16⟩ := by decide
  rcases lt_trichotomy e (2 ^ 24) with hlt | heq | hgt
  · rcases Nat.eq_zero_or_pos e with he0 | hpos
    · subst he0; decide
    · have hact : roundf32 (natToDy e) = ⟨e, 0⟩ := roundf32_small e 0 hpos hlt
      simp only [is_in_width, hmin, hmax, hact, dyLt, Bool.and_eq_true,
        decide_eq_true_eq]
      norm_num
      omega
  · subst heq; decide
  · obtain ⟨m, hm, hx⟩ := roundf32_big e (le_of_lt hgt)
    have hx' : roundf32 (natToDy e) = ⟨m, 0⟩ := hx
    simp only [is_in_width, hmin, hmax, hx', dyLt, Bool.and_eq_true,
      decide_eq_true_eq]
    norm_num at hm hgt ⊢
    omega

theorem is_in_width_500 (e : ℕ) : is_in_width e 500 = true ↔ 400 < e ∧ e < 600 := by
  have hmin : roundf32 (dyMul (roundf32 (natToDy 500))
      (roundf32 (dySub (natToDy 1) ALLOWED_ERROR))) = ⟨13107200, 15⟩ := by decide
  have hmax : roundf32 (dyMul (roundf32 (natToDy 500))
      (roundf32 (dyAdd (natToDy 1) ALLOWED_ERROR))) = ⟨9830400, 14⟩ := by decide
  rcases lt_trichotomy e (2 ^ 24) with hlt | heq | hgt
  · rcases Nat.eq_zero_or_pos e with he0 | hpos
    · subst he0; decide
    · have hact : roundf32 (natToDy e) = ⟨e, 0⟩ := roundf32_small e 0 hpos hlt
      simp only [is_in_width, hmin, hmax, hact, dyLt, Bool.and_eq_true,
        decide_eq_true_eq]
      norm_num
      omega
  · subst heq; decide
  · obtain ⟨m, hm, hx⟩ := roundf32_big e (le_of_lt hgt)
    have hx' : roundf32 (natToDy e) = ⟨m, 0⟩ := hx
    simp only [is_in_width, hmin, hmax, hx', dyLt, Bool.and_eq_true,
      decide_eq_true_eq]
    norm_num at hm hgt ⊢
    omega

theorem is_in_width_800 (e : ℕ) : is_in_width e 800 = true ↔ 640 < e ∧ e ≤ 960 := by
  have hmin : roundf32 (dyMul (roundf32 (natToDy 800))
      (roundf32 (dySub (natToDy 1) ALLOWED_ERROR))) = ⟨10485760, 14⟩ := by decide
  have hmax : roundf32 (dyMul (roundf32 (natToDy 800))
      (roundf32 (dyAdd (natToDy 1) ALLOWED_ERROR))) = ⟨15728641, 14⟩ := by decide
  rcases lt_trichotomy e (2 ^ 24) with hlt | heq | hgt
  · rcases Nat.eq_zero_or_pos e with he0 | hpos
    · subst he0; decide
    · have hact : roundf32 (natToDy e) = ⟨e, 0⟩ := roundf32_small e 0 hpos hlt
      simp only [is_in_width, hmin, hmax, hact, dyLt, Bool.and_eq_true,
        decide_eq_true_eq]
      norm_num
      omega
  · subst heq; decide
  · obtain ⟨m, hm, hx⟩ := roundf32_big e (le_of_lt hgt)
    have hx' : roundf32 (natToDy e) = ⟨m, 0⟩ := hx
    simp only [is_in_width, hmin, hmax, hx', dyLt, Bool.and_eq_true,
      decide_eq_true_eq]
    norm_num at hm hgt ⊢
    omega

/-- C2 (amended): the classifier is total over `BitWidth` and its three
acceptance windows are the integer solutions of the `f32` comparisons:
`Marker` exactly on `160 < e ≤ 240`, `Short` exactly on `400 < e < 600`,
`Long` exactly on `640 < e ≤ 960`, `Unknown` exactly elsewhere.  The lower
boundaries `n·0.80` are excluded as the spec states, but `f32` rounding
makes the upper boundary inclusive for the 200 ms and 800 ms windows; the
windows are pairwise disjoint. -/
theorem classify_windows (e : ℕ) :
    (classify e = BitWidth.Marker ↔ 160 < e ∧ e ≤ 240) ∧
    (classify e = BitWidth.Short ↔ 400 < e ∧ e < 600) ∧
    (classify e = BitWidth.Long ↔ 640 < e ∧ e ≤ 960) ∧
    (classify e = BitWidth.Unknown ↔
      ¬((160 < e ∧ e ≤ 240) ∨ (400 < e ∧ e < 600) ∨ (640 < e ∧ e ≤ 960))) := by
  have h2 := is_in_width_200 e
  have h5 := is_in_width_500 e
  have h8 := is_in_width_800 e
  unfold classify
  rcases hb2 : is_in_width e 200 <;> rcases hb5 : is_in_width e 500 <;>
    rcases hb8 : is_in_width e 800 <;>
    simp only [hb2, hb5, hb8, Bool.false_eq_true,
      false_iff, true_iff, iff_true, iff_false] at h2 h5 h8 <;>
    simp only [if_true, if_false, Bool.false_eq_true] <;>
    refine ⟨?_, ?_, ?_, ?_⟩ <;>
    simp only [reduceCtorEq, false_iff, true_iff, iff_true, iff_false,
      not_or, not_and, not_lt, not_le] <;>
    omega

/-- C2 counterexample: at `e = 240 = 200 · 1.20` the classifier returns
`Marker`, not `Unknown` — the upper window boundary is not strict in the
compiled `f32` arithmetic. -/
theorem classify_boundary_240 :
    classify 240 = BitWidth.Marker ∧ classify 240 ≠ BitWidth.Unknown := by
  decide

/-- C9 (amended): the integer predicate `5·e ∈ (4·n, 6·n)` agrees with the
source's `f32` check everywhere except at `e = 240` for `n = 200` and at
`e = 960` for `n = 800`, where the `f32` check accepts and the integer
predicate rejects: the reformulation is not bit-exact at those two points. -/
theorem intPred_vs_is_in_width (e : ℕ) :
    (is_in_width e 200 = (intPred e 200 || decide (e = 240))) ∧
    (is_in_width e 500 = intPred e 500) ∧
    (is_in_width e 800 = (intPred e 800 || decide (e = 960))) := by
  have h2 := is_in_width_200 e
  have h5 := is_in_width_500 e
  have h8 := is_in_width_800 e
  refine ⟨?_, ?_, ?_⟩
  · rw [Bool.eq_iff_iff, h2]
    simp only [intPred, Bool.or_eq_true, Bool.and_eq_true, decide_eq_true_eq]
    omega
  · rw [Bool.eq_iff_iff, h5]
    simp only [intPred, Bool.and_eq_true, decide_eq_true_eq]
    omega
  · rw [Bool.eq_iff_iff, h8]
    simp only [intPred, Bool.or_eq_true, Bool.and_eq_true, decide_eq_true_eq]
    omega

/-- C9 counterexample: at `e = 240`, `n = 200` the `f32` check accepts while
the integer reformulation rejects, so the two predicates are not equal
there. -/
theorem intPred_mismatch_240 :
    is_in_width 240 200 = true ∧ intPred 240 200 = false := by
  decide

/-! ### Lemmas: the decoder state machine -/

theorem step_inv (s : JjyState) (bit : BitWidth) (t : ℕ)
    (h1 : s.cursor < 60) (h2 : s.recording = false → s.cursor = 0) :
    (step s bit t).1.cursor < 60 ∧
      ((step s bit t).1.recording = false → (step s bit t).1.cursor = 0) := by
  cases bit
  case Unknown => simp [step]
  case Marker =>
    rcases hprev : s.previous_is_marker
    · rcases hrec : s.recording
      · have h0 := h2 hrec
        simp [step, hprev, hrec]
        omega
      · rcases hc : decide (s.cursor = 38)
        · simp [step, hprev, hrec, of_decide_eq_false hc]
          omega
        · have hc38 := of_decide_eq_true hc
          rcases hdec : to_minute_hour_day s.buffer with _ | ⟨m, h, d⟩
          · simp [step, hprev, hrec, hc38, hdec]
          · simp [step, hprev, hrec, hc38, hdec]
    · simp [step, hprev]
  case Short =>
    rcases hrec : s.recording
    · have h0 := h2 hrec
      simp [step, hrec]
      omega
    · rcases hc : decide (s.cursor = 38)
      · simp [step, hrec, of_decide_eq_false hc]
        omega
      · have hc38 := of_decide_eq_true hc
        rcases hdec : to_minute_hour_day s.buffer with _ | ⟨m, h, d⟩
        · simp [step, hrec, hc38, hdec]
        · simp [step, hrec, hc38, hdec]
  case Long =>
    rcases hrec : s.recording
    · have h0 := h2 hrec
      simp [step, hrec]
      omega
    · rcases hc : decide (s.cursor = 38)
      · simp [step, hrec, of_decide_eq_false hc]
        omega
      · have hc38 := of_decide_eq_true hc
        rcases hdec : to_minute_hour_day s.buffer with _ | ⟨m, h, d⟩
        · simp [step, hrec, hc38, hdec]
        · simp [step, hrec, hc38, hdec]

theorem processList_inv : ∀ (l : List (BitWidth × ℕ)) (s : JjyState),
    s.cursor < 60 → (s.recording = false → s.cursor = 0) →
    (processList s l).1.cursor < 60 ∧
      ((processList s l).1.recording = false → (processList s l).1.cursor = 0) := by
  intro l
  induction l with
  | nil => intro s h1 h2; exact ⟨h1, h2⟩
  | cons a rest ih =>
    intro s h1 h2
    obtain ⟨bit, t⟩ := a
    have hstep := step_inv s bit t h1 h2
    simpa [processList] using ih (step s bit t).1 hstep.1 hstep.2

/-- C8: from the initial state, after any input sequence the cursor stays in
`[0, 60)` and is 0 whenever `recording` is false; in particular the store
`buffer[cursor] = bit` always writes inside the 60-element buffer. -/
theorem reachable_cursor_bounds (l : List (BitWidth × ℕ)) :
    (processList initState l).1.cursor < 60 ∧
      ((processList initState l).1.recording = false →
        (processList initState l).1.cursor = 0) :=
  processList_inv l initState (by simp [initState]) (fun _ => rfl)

/-- C8 witness: after a single `Marker` the decoder is not recording and its
cursor is 0. -/
theorem reachable_cursor_bounds_witness :
    (processList initState [(BitWidth.Marker, 0)]).1.cursor = 0 :=
  (reachable_cursor_bounds [(BitWidth.Marker, 0)]).2 (by decide)

theorem markerFree_no_recording : ∀ (l : List (BitWidth × ℕ)) (s : JjyState),
    s.recording = false →
    markerFree s.previous_is_marker (l.map Prod.fst) = true →
    (processList s l).1.recording = false := by
  intro l
  induction l with
  | nil => intro s h _; simpa [processList] using h
  | cons a rest ih =>
    intro s hrec hmf
    obtain ⟨bit, t⟩ := a
    cases bit
    case Unknown =>
      simp only [List.map_cons, markerFree] at hmf
      simpa [processList, step] using
        ih { s with cursor := 0, recording := false } rfl hmf
    case Marker =>
      simp only [List.map_cons, markerFree, Bool.and_eq_true, Bool.not_eq_eq_eq_not,
        Bool.not_true] at hmf
      obtain ⟨hprev, hmf⟩ := hmf
      simpa [processList, step, hprev, hrec] using
        ih { s with previous_is_marker := true } hrec hmf
    case Short =>
      simp only [List.map_cons, markerFree] at hmf
      simpa [processList, step, hrec] using
        ih { s with previous_is_marker := false } hrec hmf
    case Long =>
      simp only [List.map_cons, markerFree] at hmf
      simpa [processList, step, hrec] using
        ih { s with previous_is_marker := false } hrec hmf

/-- C7 (amended): recording is entered only at a step whose symbol is
`Marker` while `previous_is_marker` is already set, and no input sequence in
which no `Marker` is immediately preceded — ignoring interleaved `Unknown`
symbols, which leave `previous_is_marker` untouched — by another `Marker`
ever sets the recording flag.  (A sequence merely lacking *consecutive*
`Marker`s can still start recording: see the counterexample.) -/
theorem recording_needs_marker_pair :
    (∀ l : List (BitWidth × ℕ), markerFree false (l.map Prod.fst) = true →
      (processList initState l).1.recording = false) ∧
    (∀ (s : JjyState) (bit : BitWidth) (t : ℕ),
      (step s bit t).1.recording = true →
      s.recording = true ∨ (bit = BitWidth.Marker ∧ s.previous_is_marker = true)) := by
  constructor
  · intro l hmf
    exact markerFree_no_recording l initState rfl hmf
  · intro s bit t h
    rcases hrec : s.recording
    · cases bit
      case Unknown => simp [step, hrec] at h
      case Marker =>
        rcases hprev : s.previous_is_marker
        · simp [step, hrec, hprev] at h
        · exact Or.inr ⟨rfl, rfl⟩
      case Short => simp [step, hrec] at h
      case Long => simp [step, hrec] at h
    · exact Or.inl rfl

/-- C7 witness: a lone `Short` symbol leaves the decoder out of recording. -/
theorem recording_needs_marker_pair_witness :
    (processList initState [(BitWidth.Short, 0)]).1.recording = false :=
  recording_needs_marker_pair.1 [(BitWidth.Short, 0)] (by decide)

/-- C7 counterexample: `Marker, Unknown, Marker` contains no two consecutive
`Marker` symbols, yet it drives the decoder into recording, because the
`Unknown` reset leaves `previous_is_marker` set. -/
theorem recording_without_consecutive_markers :
    noTwoConsecutiveMarkers [BitWidth.Marker, BitWidth.Unknown, BitWidth.Marker]
        = true ∧
      (processList initState
        [(BitWidth.Marker, 0), (BitWidth.Unknown, 1), (BitWidth.Marker, 2)]).1.recording
        = true := by
  decide

/-- C6 (amended): an `Unknown` symbol, and a decode failure at cursor 38,
reset the framing state — `cursor = 0` and `recording = false` — but they do
not restore the full initial state: the buffer keeps its captured symbols
and `previous_is_marker` keeps its previous value (see the counterexample). -/
theorem reset_clears_framing :
    (∀ (s : JjyState) (t : ℕ),
      (step s BitWidth.Unknown t).1.cursor = 0 ∧
        (step s BitWidth.Unknown t).1.recording = false) ∧
    (∀ (s : JjyState) (bit : BitWidth) (t : ℕ),
      bit ≠ BitWidth.Unknown →
      ¬(bit = BitWidth.Marker ∧ s.previous_is_marker = true) →
      s.recording = true → s.cursor = 38 → to_minute_hour_day s.buffer = none →
      (step s bit t).1.cursor = 0 ∧ (step s bit t).1.recording = false) := by
  constructor
  · intro s t
    simp [step]
  · intro s bit t hb hmp hrec hc hdec
    cases bit
    case Unknown => exact absurd rfl hb
    case Marker =>
      rcases hprev : s.previous_is_marker
      · simp [step, hprev, hrec, hc, hdec]
      · exact absurd ⟨rfl, hprev⟩ hmp
    case Short => simp [step, hrec, hc, hdec]
    case Long => simp [step, hrec, hc, hdec]

/-- C6 witness: with an all-`Unknown` buffer decode fails at cursor 38, and
the failing step resets cursor and recording. -/
theorem reset_clears_framing_witness :
    (step ⟨fun _ => BitWidth.Unknown, 38, true, false⟩ BitWidth.Short 0).1.cursor = 0 ∧
      (step ⟨fun _ => BitWidth.Unknown, 38, true, false⟩ BitWidth.Short 0).1.recording
        = false :=
  reset_clears_framing.2 ⟨fun _ => BitWidth.Unknown, 38, true, false⟩ BitWidth.Short 0
    (by decide) (by simp) rfl rfl (by decide)

/-- C6 counterexample: after `Marker, Unknown` the framing state is reset,
but `previous_is_marker` is still `true`, unlike in the initial state — the
decoder state does not equal `initState`. -/
theorem unknown_keeps_marker_flag :
    (processList initState
        [(BitWidth.Marker, 0), (BitWidth.Unknown, 1)]).1.previous_is_marker = true ∧
      initState.previous_is_marker = false := by
  decide

/-- C1: while recording with the cursor at 38, any step that neither aborts
(`Unknown`) nor restarts the frame (double `Marker`) and whose decode
succeeds publishes exactly one update,
`TimeBase { system_time = up_at, clock = minute·60 + hour·3600 + 38 }`; and
the scenario-S1 stream (minute 34, hour 12, day 158) publishes exactly
`[{ system_time = 39, clock = 45278 }]` — the timestamp of the falling edge
of the symbol processed at cursor 38. -/
theorem publish_at_cursor_38 :
    (∀ (s : JjyState) (bit : BitWidth) (t m h d : ℕ),
      bit ≠ BitWidth.Unknown →
      ¬(bit = BitWidth.Marker ∧ s.previous_is_marker = true) →
      s.recording = true → s.cursor = 38 →
      to_minute_hour_day s.buffer = some (m, h, d) →
      (step s bit t).2 = some ⟨t, m * 60 + h * 3600 + 38⟩) ∧
    (processList initState s1Input).2 = [⟨39, 45278⟩] := by
  constructor
  · intro s bit t m h d hb hmp hrec hc hdec
    cases bit
    case Unknown => exact absurd rfl hb
    case Marker =>
      rcases hprev : s.previous_is_marker
      · simp [step, hprev, hrec, hc, hdec]
      · exact absurd ⟨rfl, hprev⟩ hmp
    case Short => simp [step, hrec, hc, hdec]
    case Long => simp [step, hrec, hc, hdec]
  · decide

/-- C1 witness: a state holding the S1 frame head with the cursor at 38
publishes `clock = 34·60 + 12·3600 + 38 = 45278` stamped with the current
falling-edge time. -/
theorem publish_at_cursor_38_witness :
    (step ⟨encodeFrame 34 12 158, 38, true, false⟩ BitWidth.Long 7).2 =
      some ⟨7, 45278⟩ := by
  have h := publish_at_cursor_38.1 ⟨encodeFrame 34 12 158, 38, true, false⟩
    BitWidth.Long 7 34 12 158 (by decide) (by simp) rfl rfl (by decide)
  simpa using h

/-! ### Lemmas: parity enforcement in `to_minute_hour_day` -/

theorem try_as_bool_flip {b : BitWidth} {x : Bool} (h : b.try_as_bool = some x) :
    (flipSym b).try_as_bool = some (!x) := by
  cases b <;> simp_all [BitWidth.try_as_bool, flipSym]

theorem accumField_update_not_mem (buf : ℕ → BitWidth) (p : ℕ) (v : BitWidth) :
    ∀ l : List (ℕ × ℕ), p ∉ l.map Prod.fst →
    accumField (Function.update buf p v) l = accumField buf l := by
  intro l
  induction l with
  | nil => intro _; rfl
  | cons a rest ih =>
    intro hmem
    obtain ⟨q, w⟩ := a
    simp only [List.map_cons, List.mem_cons] at hmem
    push_neg at hmem
    obtain ⟨hpq, hrest⟩ := hmem
    simp only [accumField, Function.update_apply,
      if_neg (show ¬q = p from fun hh => hpq hh.symm), ih hrest]

theorem sumField_update_not_mem (buf : ℕ → BitWidth) (p : ℕ) (v : BitWidth) :
    ∀ l : List (ℕ × ℕ), p ∉ l.map Prod.fst →
    sumField (Function.update buf p v) l = sumField buf l := by
  intro l
  induction l with
  | nil => intro _; rfl
  | cons a rest ih =>
    intro hmem
    obtain ⟨q, w⟩ := a
    simp only [List.map_cons, List.mem_cons] at hmem
    push_neg at hmem
    obtain ⟨hpq, hrest⟩ := hmem
    simp only [sumField, Function.update_apply,
      if_neg (show ¬q = p from fun hh => hpq hh.symm), ih hrest]

theorem accumField_flip (buf : ℕ → BitWidth) (p : ℕ) :
    ∀ l : List (ℕ × ℕ), (l.map Prod.fst).Nodup → p ∈ l.map Prod.fst →
    ∀ (v : ℕ) (par : Bool), accumField buf l = some (v, par) →
    ∃ v', accumField (Function.update buf p (flipSym (buf p))) l
      = some (v', !par) := by
  intro l
  induction l with
  | nil => intro _ hmem; simp at hmem
  | cons a rest ih =>
    intro hnd hmem v par hacc
    obtain ⟨q, w⟩ := a
    simp only [List.map_cons] at hnd hmem
    rw [List.nodup_cons] at hnd
    obtain ⟨hqnot, hndrest⟩ := hnd
    simp only [accumField] at hacc
    rcases hbq : (buf q).try_as_bool with _ | b
    · simp only [hbq] at hacc
      exact Option.noConfusion hacc
    · simp only [hbq] at hacc
      rcases hrest : accumField buf rest with _ | ⟨v0, p0⟩
      · simp only [hrest] at hacc
        exact Option.noConfusion hacc
      · simp only [hrest, Option.some.injEq, Prod.mk.injEq] at hacc
        obtain ⟨hv, hpar⟩ := hacc
        rcases List.mem_cons.1 hmem with hpq | hprest
        · subst hpq
          refine ⟨if !b then v0 + w else v0, ?_⟩
          simp only [accumField, Function.update_same, try_as_bool_flip hbq,
            accumField_update_not_mem buf p (flipSym (buf p)) rest hqnot, hrest]
          rw [← hpar]
          cases b <;> simp
        · have hqp : ¬q = p := fun hh => hqnot (hh ▸ hprest)
          obtain ⟨v', hv'⟩ := ih hndrest hprest v0 p0 hrest
          refine ⟨if b then v' + w else v', ?_⟩
          simp only [accumField, Function.update_apply, if_neg hqp, hbq, hv']
          rw [← hpar]
          cases b <;> simp

/-- C4: flipping exactly one data symbol (`Short ↔ Long`) at a minute
position (1,2,3,5,6,7,8) or an hour position (12,13,15,16,17,18) of a
successfully decoding 38-symbol frame head makes `to_minute_hour_day` fail:
the stored parity bit at position 37 (minute) respectively 36 (hour) no
longer matches the recomputed parity. -/
theorem parity_flip_fails (buf : ℕ → BitWidth) (m h d p : ℕ)
    (hdec : to_minute_hour_day buf = some (m, h, d))
    (hp : p ∈ ([1, 2, 3, 5, 6, 7, 8] : List ℕ) ∨
      p ∈ ([12, 13, 15, 16, 17, 18] : List ℕ)) :
    to_minute_hour_day (Function.update buf p (flipSym (buf p))) = none := by
  unfold to_minute_hour_day at hdec
  rcases hm : accumField buf minutePositions with _ | ⟨mv, mpar⟩
  · simp only [hm] at hdec
    exact Option.noConfusion hdec
  simp only [hm] at hdec
  rcases hh : accumField buf hourPositions with _ | ⟨hv, hpar⟩
  · simp only [hh] at hdec
    exact Option.noConfusion hdec
  simp only [hh] at hdec
  rcases hd : sumField buf dayPositions with _ | dv
  · simp only [hd] at hdec
    exact Option.noConfusion hdec
  simp only [hd] at hdec
  rcases h36 : (buf 36).try_as_bool with _ | b36
  · simp only [h36] at hdec
    exact Option.noConfusion hdec
  simp only [h36] at hdec
  by_cases hb36 : b36 ≠ hpar
  · rw [if_pos hb36] at hdec
    exact Option.noConfusion hdec
  rw [if_neg hb36] at hdec
  push_neg at hb36
  rcases h37 : (buf 37).try_as_bool with _ | b37
  · simp only [h37] at hdec
    exact Option.noConfusion hdec
  simp only [h37] at hdec
  by_cases hb37 : b37 ≠ mpar
  · rw [if_pos hb37] at hdec
    exact Option.noConfusion hdec
  rw [if_neg hb37] at hdec
  push_neg at hb37
  rcases hp with hp | hp
  · have hfacts : ∀ x ∈ ([1, 2, 3, 5, 6, 7, 8] : List ℕ),
        x ∈ minutePositions.map Prod.fst ∧ x ∉ hourPositions.map Prod.fst ∧
        x ∉ dayPositions.map Prod.fst ∧ ¬(36 : ℕ) = x ∧ ¬(37 : ℕ) = x := by
      decide
    obtain ⟨hpm, hnotH, hnotD, hne36, hne37⟩ := hfacts p hp
    obtain ⟨v', hflip⟩ := accumField_flip buf p minutePositions (by decide) hpm
      mv mpar hm
    unfold to_minute_hour_day
    rw [hflip, accumField_update_not_mem buf p (flipSym (buf p)) hourPositions hnotH,
      hh, sumField_update_not_mem buf p (flipSym (buf p)) dayPositions hnotD, hd]
    simp only [Function.update_apply, hne36, hne37, if_false, h36, h37]
    simp [hb36, hb37]
  · have hfacts : ∀ x ∈ ([12, 13, 15, 16, 17, 18] : List ℕ),
        x ∈ hourPositions.map Prod.fst ∧ x ∉ minutePositions.map Prod.fst ∧
        x ∉ dayPositions.map Prod.fst ∧ ¬(36 : ℕ) = x ∧ ¬(37 : ℕ) = x := by
      decide
    obtain ⟨hph, hnotM, hnotD, hne36, hne37⟩ := hfacts p hp
    obtain ⟨v', hflip⟩ := accumField_flip buf p hourPositions (by decide) hph
      hv hpar hh
    unfold to_minute_hour_day
    rw [accumField_update_not_mem buf p (flipSym (buf p)) minutePositions hnotM,
      hm, hflip,
      sumField_update_not_mem buf p (flipSym (buf p)) dayPositions hnotD, hd]
    simp only [Function.update_apply, hne36, hne37, if_false, h36, h37]
    simp [hb36, hb37]

/-- C4 witness: flipping the minute bit at position 1 of the decodable S1
frame head makes the decode fail. -/
theorem parity_flip_fails_witness :
    to_minute_hour_day (Function.update (encodeFrame 34 12 158) 1
      (flipSym (encodeFrame 34 12 158 1))) = none :=
  parity_flip_fails (encodeFrame 34 12 158) 34 12 158 1 (by decide)
    (Or.inl (by decide))

/-! ### Lemmas: round-trip of the spec encoder through the decoder -/

theorem try_as_bool_boolToSym (b : Bool) : (boolToSym b).try_as_bool = some b := by
  cases b <;> rfl

theorem accumMinute (H D t o : ℕ) (ht : t ≤ 5) (ho : o ≤ 9) :
    accumField (encodeFrame (10 * t + o) H D) minutePositions
      = some (10 * t + o, minuteParity (10 * t + o)) := by
  interval_cases t <;> interval_cases o <;> rfl

theorem accumHour (M D t o : ℕ) (ht : t ≤ 2) (ho : o ≤ 9) :
    accumField (encodeFrame M (10 * t + o) D) hourPositions
      = some (10 * t + o, hourParity (10 * t + o)) := by
  interval_cases t <;> interval_cases o <;> rfl

theorem sumDay (M H c t o : ℕ) (hc : c ≤ 3) (ht : t ≤ 9) (ho : o ≤ 9) :
    sumField (encodeFrame M H (100 * c + 10 * t + o)) dayPositions
      = some (100 * c + 10 * t + o) := by
  interval_cases c <;> interval_cases t <;> interval_cases o <;> rfl

/-- C5: for every minute in `[0, 59]`, hour in `[0, 23]` and day-of-year in
`[1, 366]`, encoding the triple into the 38-symbol frame head with the
spec's bit weights and correct even-parity bits and decoding it with
`to_minute_hour_day` returns exactly the same triple. -/
theorem encode_decode_roundtrip (m h d : ℕ) (hm : m ≤ 59) (hh : h ≤ 23)
    (hd1 : 1 ≤ d) (hd2 : d ≤ 366) :
    to_minute_hour_day (encodeFrame m h d) = some (m, h, d) := by
  have hmEq : m = 10 * (m / 10) + m % 10 := by omega
  have hhEq : h = 10 * (h / 10) + h % 10 := by omega
  have hdEq : d = 100 * (d / 100) + 10 * (d / 10 % 10) + d % 10 := by omega
  have h1 := accumMinute h d (m / 10) (m % 10) (by omega) (by omega)
  have h2 := accumHour m d (h / 10) (h % 10) (by omega) (by omega)
  have h3 := sumDay m h (d / 100) (d / 10 % 10) (d % 10) (by omega) (by omega)
    (by omega)
  rw [← hmEq] at h1
  rw [← hhEq] at h2
  rw [← hdEq] at h3
  have e36 : (encodeFrame m h d 36).try_as_bool = some (hourParity h) :=
    try_as_bool_boolToSym (hourParity h)
  have e37 : (encodeFrame m h d 37).try_as_bool = some (minuteParity m) :=
    try_as_bool_boolToSym (minuteParity m)
  simp only [to_minute_hour_day, h1, h2, h3, e36, e37]
  simp

/-- C5 witness: the extreme triple (59, 23, 366) round-trips. -/
theorem encode_decode_roundtrip_witness :
    to_minute_hour_day (encodeFrame 59 23 366) = some (59, 23, 366) :=
  encode_decode_roundtrip 59 23 366 (by decide) (by decide) (by decide) (by decide)

/-! ### Lemmas: decoded field ranges and the renderer -/

theorem accumField_le_sum (buf : ℕ → BitWidth) :
    ∀ l : List (ℕ × ℕ), ∀ (v : ℕ) (par : Bool), accumField buf l = some (v, par) →
    v ≤ (l.map Prod.snd).sum := by
  intro l
  induction l with
  | nil =>
    intro v par hacc
    simp only [accumField, Option.some.injEq, Prod.mk.injEq] at hacc
    obtain ⟨hv, _⟩ := hacc
    simp [← hv]
  | cons a rest ih =>
    intro v par hacc
    obtain ⟨q, w⟩ := a
    simp only [accumField] at hacc
    rcases hbq : (buf q).try_as_bool with _ | b
    · simp only [hbq] at hacc
      exact Option.noConfusion hacc
    · simp only [hbq] at hacc
      rcases hrest : accumField buf rest with _ | ⟨v0, p0⟩
      · simp only [hrest] at hacc
        exact Option.noConfusion hacc
      · simp only [hrest, Option.some.injEq, Prod.mk.injEq] at hacc
        obtain ⟨hv, _⟩ := hacc
        have hle := ih v0 p0 hrest
        simp only [List.map_cons, List.sum_cons]
        cases b <;> simp at hv <;> omega

/-- C10: `to_minute_hour_day` does no range validation — there is a frame
head with valid data symbols and matching parity bits that decodes to
minute 85, hour 45, day 465 (all out of range), whose published clock
`85·60 + 45·3600 + 38 = 167138` exceeds any real seconds-of-day value and
is only reduced modulo 86400 by the renderer; and 85 and 45 are exactly the
largest decodable minute and hour. -/
theorem decode_no_range_check :
    (∃ (buf : ℕ → BitWidth) (m h d : ℕ),
      to_minute_hour_day buf = some (m, h, d) ∧ 59 < m ∧ 23 < h ∧ 366 < d ∧
        86399 < m * 60 + h * 3600 + 38) ∧
    (∀ (buf : ℕ → BitWidth) (m h d : ℕ),
      to_minute_hour_day buf = some (m, h, d) → m ≤ 85 ∧ h ≤ 45) := by
  constructor
  · exact ⟨allOnesBuf, 85, 45, 465, by decide, by decide, by decide, by decide,
      by decide⟩
  · intro buf m h d hdec
    unfold to_minute_hour_day at hdec
    rcases hm : accumField buf minutePositions with _ | ⟨mv, mpar⟩
    · simp only [hm] at hdec
      exact Option.noConfusion hdec
    simp only [hm] at hdec
    rcases hh : accumField buf hourPositions with _ | ⟨hv, hpar⟩
    · simp only [hh] at hdec
      exact Option.noConfusion hdec
    simp only [hh] at hdec
    rcases hday : sumField buf dayPositions with _ | dv
    · simp only [hday] at hdec
      exact Option.noConfusion hdec
    simp only [hday] at hdec
    rcases h36 : (buf 36).try_as_bool with _ | b36
    · simp only [h36] at hdec
      exact Option.noConfusion hdec
    simp only [h36] at hdec
    by_cases hb36 : b36 ≠ hpar
    · rw [if_pos hb36] at hdec
      exact Option.noConfusion hdec
    rw [if_neg hb36] at hdec
    rcases h37 : (buf 37).try_as_bool with _ | b37
    · simp only [h37] at hdec
      exact Option.noConfusion hdec
    simp only [h37] at hdec
    by_cases hb37 : b37 ≠ mpar
    · rw [if_pos hb37] at hdec
      exact Option.noConfusion hdec
    rw [if_neg hb37] at hdec
    simp only [Option.some.injEq, Prod.mk.injEq] at hdec
    obtain ⟨hm', hh', _⟩ := hdec
    have t1 := accumField_le_sum buf minutePositions mv mpar hm
    have t2 := accumField_le_sum buf hourPositions hv hpar hh
    simp [minutePositions, hourPositions] at t1 t2
    omega

/-- C10 witness: the all-ones frame head realizes the maximal decodable
minute and hour. -/
theorem decode_no_range_check_witness : (85 : ℕ) ≤ 85 ∧ (45 : ℕ) ≤ 45 :=
  decode_no_range_check.2 allOnesBuf 85 45 465 (by decide)

/-- C3 (amended): as long as the elapsed-seconds value fits a `u32`
(`c0 + (t − t0 + 25) div 1000 < 2^32` — violated only after about
136 years of uptime, see the counterexample), the seconds-of-day value the
renderer decomposes into `HH:MM:SS` equals
`(c0 + (t − t0 + 25) div 1000) mod 86400`; and with
`TimeBase { system_time = 10000, clock = 3661 }` and `now = 12975` the
rendered text begins `"01:01:04"`. -/
theorem render_clock_formula :
    (∀ t0 c0 t : ℕ, t0 ≤ t → t < 2 ^ 64 →
      c0 + (t - t0 + 25) / 1000 < 2 ^ 32 →
      displaySecondsOfDay ⟨t0, c0⟩ t = (c0 + (t - t0 + 25) / 1000) % 86400) ∧
    (renderTimeBytes ⟨10000, 3661⟩ 12975).take 8 =
      [0x30, 0x31, 0x3A, 0x30, 0x31, 0x3A, 0x30, 0x34] := by
  constructor
  · intro t0 c0 t h1 h2 h3
    have p64 : (2 : ℕ) ^ 64 = 18446744073709551616 := by norm_num
    have p32 : (2 : ℕ) ^ 32 = 4294967296 := by norm_num
    simp only [displaySecondsOfDay]
    rw [p64] at h2
    rw [p32] at h3
    rw [p64, p32]
    have e1 : t % 18446744073709551616 = t := Nat.mod_eq_of_lt h2
    have e2 : t0 % 18446744073709551616 = t0 := Nat.mod_eq_of_lt (by omega)
    rw [e1, e2]
    have e3 : (t + 18446744073709551616 - t0) % 18446744073709551616 = t - t0 := by
      omega
    rw [e3]
    have e4 : (t - t0 + 25) % 18446744073709551616 = t - t0 + 25 := by
      apply Nat.mod_eq_of_lt
      omega
    rw [e4]
    have e5 : (t - t0 + 25) / 1000 % 4294967296 = (t - t0 + 25) / 1000 := by
      apply Nat.mod_eq_of_lt
      omega
    rw [e5]
    have e6 : (c0 + (t - t0 + 25) / 1000) % 4294967296
        = c0 + (t - t0 + 25) / 1000 := by
      apply Nat.mod_eq_of_lt
      omega
    rw [e6]
  · decide

/-- C3 witness: the scenario-S6 numbers applied to the formula. -/
theorem render_clock_formula_witness :
    displaySecondsOfDay ⟨10000, 3661⟩ 12975 =
      (3661 + (12975 - 10000 + 25) / 1000) % 86400 :=
  render_clock_formula.1 10000 3661 12975 (by decide) (by decide) (by decide)

/-- C3 counterexample: at `t = 2^32 · 1000` with a delivered
`TimeBase { system_time = 0, clock = 38 }`, the truncating `as u32` cast
makes the renderer show second-of-day 38, while the claim's formula demands
23334 — the claimed identity fails without the no-overflow hypothesis. -/
theorem render_clock_truncation :
    displaySecondsOfDay ⟨0, 38⟩ (2 ^ 32 * 1000) = 38 ∧
      (38 + (2 ^ 32 * 1000 - 0 + 25) / 1000) % 86400 = 23334 ∧
      (38 : ℕ) ≠ 23334 := by
  exact ⟨by decide, by decide, by decide⟩

/-- C2 instance: 300 ms lies in no window and classifies as `Unknown`. -/
theorem classify_windows_witness : classify 300 = BitWidth.Unknown :=
  (classify_windows 300).2.2.2.mpr (by intro hc; rcases hc with h | h | h <;> omega)

/-- C9 instance: at the nominal width itself the two predicates agree. -/
theorem intPred_vs_is_in_width_witness :
    is_in_width 500 500 = intPred 500 500 :=
  (intPred_vs_is_in_width 500).2.1
